import Mathlib

/-!
Verification development for the Minesweeper AI engine (`minesweeper.py`).

The Python program is shallowly embedded: Python `set`s of board cells become
`Finset (ℤ × ℤ)`, the mutable `Sentence` and `MinesweeperAI` objects become
values that are threaded through state-passing functions, and Python's
`list` of sentences becomes a `List Sentence` (list order is observable in the
program and is preserved by the embedding).  Python iterates over hash sets in
an unspecified order; wherever the program iterates over a set and the order
of iteration can matter operationally (`update_safes`, `make_safe_move`), the
embedding fixes the lexicographic order on coordinates, which is one of the
admissible iteration orders.  All properties stated below are insensitive to
this choice.  `print` calls in the source are side effects with no bearing on
the returned values and are dropped.
-/

set_option maxHeartbeats 4000000
set_option maxRecDepth 8000

/-- A board cell, an immutable coordinate pair.  Python tuples of ints are
value-equal and hashable; `ℤ × ℤ` with decidable equality models this. -/
abbrev Cell : Type := ℤ × ℤ

/-- Lexicographic order on cells, used as the fixed set-iteration order. -/
def cellLe (a b : Cell) : Prop :=
  a.1 < b.1 ∨ (a.1 = b.1 ∧ a.2 ≤ b.2)

instance : DecidableRel cellLe := fun a b => by
  unfold cellLe; infer_instance

instance : IsTrans Cell cellLe := by
  constructor
  intro a b c hab hbc
  unfold cellLe at *
  omega

instance : IsAntisymm Cell cellLe := by
  constructor
  intro a b hab hba
  unfold cellLe at *
  have h1 : a.1 = b.1 := by omega
  have h2 : a.2 = b.2 := by omega
  exact Prod.ext h1 h2

instance : IsTotal Cell cellLe := by
  constructor
  intro a b
  unfold cellLe
  omega

/-- Deterministic iteration order for a multiset of cells: structural
insertion sort by `cellLe`.  (Insertion sort is used rather than the library
merge sort so that the function reduces inside the kernel, keeping every
evaluation below checkable by `decide`.) -/
def sortMultiset (m : Multiset Cell) : List Cell :=
  Quot.liftOn m (fun l => List.insertionSort cellLe l)
    (fun l1 l2 hp =>
      List.eq_of_perm_of_sorted
        (((List.perm_insertionSort cellLe l1).trans hp).trans
          (List.perm_insertionSort cellLe l2).symm)
        (List.sorted_insertionSort cellLe l1)
        (List.sorted_insertionSort cellLe l2))

/-- The fixed iteration order of a Python set of cells. -/
def sortCells (s : Finset Cell) : List Cell := sortMultiset s.val

/-- The cell at row `i`, column `j`. -/
def cellOfNat (i j : ℕ) : Cell := ((i : ℤ), (j : ℤ))

/-- Sentence: a set of board cells together with an integer count
(`Sentence.__init__`).  `__eq__` compares cells and count by value, which is
structural equality here. -/
structure Sentence where
  cells : Finset Cell
  count : ℤ
deriving DecidableEq

namespace Sentence

/-- `Sentence.known_mines`: returns a copy of the full cell set when
`len(self.cells) == self.count`, else the empty set. -/
def known_mines (s : Sentence) : Finset Cell :=
  if (s.cells.card : ℤ) = s.count then s.cells else ∅

/-- `Sentence.known_safes`: returns the cell set when `self.count == 0`,
else the empty set. -/
def known_safes (s : Sentence) : Finset Cell :=
  if s.count = 0 then s.cells else ∅

/-- `Sentence.mark_mine`: if the cell is present, remove it and decrement
the count. -/
def mark_mine (s : Sentence) (cell : Cell) : Sentence :=
  if cell ∈ s.cells then ⟨s.cells.erase cell, s.count - 1⟩ else s

/-- `Sentence.mark_safe`: the source removes the cell only when
`self.count != 0 and cell in self.cells`; the count is left unchanged. -/
def mark_safe (s : Sentence) (cell : Cell) : Sentence :=
  if s.count ≠ 0 ∧ cell ∈ s.cells then ⟨s.cells.erase cell, s.count⟩ else s

end Sentence

/-- The agent state: the four mutable fields of `MinesweeperAI.__init__`.
`self.height` and `self.width` are set in `__init__` and never written
afterwards; operations that read them (`make_random_move`) take them as
explicit parameters. -/
structure MinesweeperAI where
  moves_made : Finset Cell
  mines : Finset Cell
  safes : Finset Cell
  knowledge : List Sentence
deriving DecidableEq

/-- The state produced by `MinesweeperAI.__init__`. -/
def initState : MinesweeperAI := ⟨∅, ∅, ∅, []⟩

namespace MinesweeperAI

/-- `MinesweeperAI.mark_mine`: add the cell to `mines`, propagate
`Sentence.mark_mine` over every held Sentence, then append the singleton
Sentence `{cell} = 1`. -/
def mark_mine (st : MinesweeperAI) (cell : Cell) : MinesweeperAI :=
  { st with
    mines := insert cell st.mines
    knowledge := (st.knowledge.map (fun s => s.mark_mine cell)) ++ [⟨{cell}, 1⟩] }

/-- `MinesweeperAI.mark_safe`: add the cell to `safes` and propagate
`Sentence.mark_safe` over every held Sentence. -/
def mark_safe (st : MinesweeperAI) (cell : Cell) : MinesweeperAI :=
  { st with
    safes := insert cell st.safes
    knowledge := st.knowledge.map (fun s => s.mark_safe cell) }

end MinesweeperAI

/-- The 3×3 square of cells around `cell` (including `cell` itself), before
clipping: the set built by the two nested `range(-1, 2)` loops of
`MinesweeperAI.adjacent_cell`. -/
def neigh9 (cell : Cell) : Finset Cell :=
  ((([-1, 0, 1] : List ℤ).flatMap fun d1 =>
    (([-1, 0, 1] : List ℤ).map fun d2 => (cell.1 + d1, cell.2 + d2)))).toFinset

/-- `MinesweeperAI.adjacent_cell`: the 3×3 square around `cell`, with every
cell `(i, j)` satisfying `i<0 or j<0 or i>7 or j>7` removed.  The bounds `0`
and `7` are hardcoded in the source; `self.height` and `self.width` are not
consulted. -/
def adjacent_cell (cell : Cell) : Finset Cell :=
  (neigh9 cell).filter fun c => ¬(c.1 < 0 ∨ c.2 < 0 ∨ 7 < c.1 ∨ 7 < c.2)

namespace MinesweeperAI

/-- `MinesweeperAI.valid_adj`: remove from `ret` every cell already in
`moves_made`. -/
def valid_adj (st : MinesweeperAI) (ret : Finset Cell) : Finset Cell :=
  ret.filter fun c => c ∉ st.moves_made

/-- `MinesweeperAI.make_safe_move`: the first cell of `safes` (in the fixed
set-iteration order) that is in neither `mines` nor `moves_made`; `None` when
no such cell exists.  The source reads state but never writes it, and the
embedding returns no state accordingly. -/
def make_safe_move (st : MinesweeperAI) : Option Cell :=
  (sortCells st.safes).find? fun c =>
    decide (c ∉ st.mines ∧ c ∉ st.moves_made)

/-- One step of the inner loops of `MinesweeperAI.update_safes`: mark each
listed cell safe unless it is already in `safes` (the `lst` copy is re-taken
before each check, so the current `safes` is consulted). -/
def fold_mark_safes (st : MinesweeperAI) (cs : List Cell) : MinesweeperAI :=
  cs.foldl (fun acc c => if c ∈ acc.safes then acc else acc.mark_safe c) st

/-- The mine half of the inner loops of `MinesweeperAI.update_safes`. -/
def fold_mark_mines (st : MinesweeperAI) (cs : List Cell) : MinesweeperAI :=
  cs.foldl (fun acc c => if c ∈ acc.mines then acc else acc.mark_mine c) st

/-- Processing of one sentence of the `update_safes` snapshot.  The Python
loop iterates over a shallow copy `k` of `self.knowledge` holding references
to live `Sentence` objects; since `knowledge` only grows (by appends at the
end) during the pass, the object at snapshot position `idx` is the sentence
at position `idx` of the current list.  `known_safes()` is snapshotted
(`.copy()`) before its loop, and `known_mines()` is read from the live object
after the safe loop, which the re-read at `idx` models. -/
def process_sentence (st : MinesweeperAI) (idx : ℕ) : MinesweeperAI :=
  match st.knowledge.get? idx with
  | none => st
  | some s =>
    match (fold_mark_safes st (sortCells s.known_safes)).knowledge.get? idx with
    | none => fold_mark_safes st (sortCells s.known_safes)
    | some s2 =>
      fold_mark_mines (fold_mark_safes st (sortCells s.known_safes))
        (sortCells s2.known_mines)

/-- `MinesweeperAI.update_safes`: fold every sentence's `known_safes` and
`known_mines` back into `safes` / `mines`, over a snapshot of the knowledge
list taken at entry. -/
def update_safes (st : MinesweeperAI) : MinesweeperAI :=
  (List.range st.knowledge.length).foldl process_sentence st

/-- `MinesweeperAI.diff`: the cells of `j` not in `i`. -/
def diff (i j : Finset Cell) : Finset Cell := j \ i

end MinesweeperAI

/-- The guard of the sentence-pair loop in `MinesweeperAI.add_knowledge`:
`len(s1.cells) > 0 and len(s2.cells) > 0 and s1 != s2 and
s1.cells.issubset(s2.cells) and len(s1.cells) != len(s2.cells)`. -/
def pair_ok (s1 s2 : Sentence) : Bool :=
  decide (0 < s1.cells.card ∧ 0 < s2.cells.card ∧ s1 ≠ s2 ∧
    s1.cells ⊆ s2.cells ∧ s1.cells.card ≠ s2.cells.card)

namespace MinesweeperAI

/-- The nested pair loop of one saturation round of `add_knowledge`: for every
ordered pair of the snapshot `k` passing `pair_ok`, append the derived
sentence `⟨s2.cells − s1.cells, s2.count − s1.count⟩`.  No sentence mutates
during this loop, so the snapshot values are the live values. -/
def derive_pass (st : MinesweeperAI) : MinesweeperAI :=
  { st with
    knowledge := st.knowledge ++
      st.knowledge.flatMap fun s1 =>
        st.knowledge.filterMap fun s2 =>
          if pair_ok s1 s2 then
            some ⟨diff s1.cells s2.cells, s2.count - s1.count⟩
          else none }

/-- The `res` rebuild of a saturation round: keep each sentence unless it is
value-equal to one already kept or its cell set is empty. -/
def prune_pass (st : MinesweeperAI) : MinesweeperAI :=
  { st with
    knowledge := st.knowledge.foldl
      (fun res i => if i ∈ res ∨ i.cells = ∅ then res else res ++ [i]) [] }

/-- One iteration of the `for i in range(0, 3)` saturation loop of
`add_knowledge`: pair derivation, then the duplicate/empty prune, then
`update_safes`. -/
def saturation_round (st : MinesweeperAI) : MinesweeperAI :=
  update_safes (prune_pass (derive_pass st))

/-- The full bounded saturation loop: three rounds, run unconditionally once
entered. -/
def saturate (st : MinesweeperAI) : MinesweeperAI :=
  saturation_round (saturation_round (saturation_round st))

/-- The new sentence built by steps 1–3 of `add_knowledge` for `(cell, count)`
given the pre-call state: its cells are `adjacent_cell(cell)` minus the
updated `moves_made` (which contains `cell`). -/
def new_sentence (st : MinesweeperAI) (cell : Cell) (count : ℤ) : Sentence :=
  ⟨(adjacent_cell cell).filter (fun c => c ∉ insert cell st.moves_made), count⟩

/-- Steps 1–3 of `add_knowledge`: record the move, mark the cell safe, build
the neighborhood sentence and append it unless a value-equal sentence is
already held. -/
def add_step (st : MinesweeperAI) (cell : Cell) (count : ℤ) : MinesweeperAI :=
  let st1 : MinesweeperAI := { st with moves_made := insert cell st.moves_made }
  let st2 := st1.mark_safe cell
  let new_s : Sentence := ⟨st2.valid_adj (adjacent_cell cell), count⟩
  if new_s ∈ st2.knowledge then st2
  else { st2 with knowledge := st2.knowledge ++ [new_s] }

/-- `MinesweeperAI.add_knowledge`: steps 1–3, the direct-consequence pass
(`update_safes`), and — only when `make_safe_move()` is `None` at that point —
the three saturation rounds. -/
def add_knowledge (st : MinesweeperAI) (cell : Cell) (count : ℤ) : MinesweeperAI :=
  let st4 := update_safes (add_step st cell count)
  if (make_safe_move st4).isNone then saturate st4 else st4

/-- The union of the cell sets of all positive-count sentences: the `lst`
built at the top of `MinesweeperAI.make_random_move`. -/
def positive_cells (st : MinesweeperAI) : Finset Cell :=
  st.knowledge.foldl (fun acc s => if 0 < s.count then acc ∪ s.cells else acc) ∅

end MinesweeperAI

/-- The scan order of the two loops of `make_random_move`:
`for i in range(0, self.width): for j in range(0, self.height)`. -/
def random_scan (height width : ℕ) : List Cell :=
  (List.range width).flatMap fun i =>
    (List.range height).map fun j => cellOfNat i j

namespace MinesweeperAI

/-- `MinesweeperAI.make_random_move` for a board of the given height and
width: first scan `i in range(width)`, `j in range(height)` for a cell not in
`mines`, `moves_made`, or any positive-count sentence; then the same scan
without the last condition; else `None`.  Note the first coordinate ranges
over `width` and the second over `height`, exactly as in the source. -/
def make_random_move (height width : ℕ) (st : MinesweeperAI) : Option Cell :=
  match (random_scan height width).find? (fun c =>
      decide (c ∉ st.mines ∧ c ∉ st.moves_made ∧ c ∉ positive_cells st)) with
  | some c => some c
  | none =>
    (random_scan height width).find? fun c =>
      decide (c ∉ st.mines ∧ c ∉ st.moves_made)

end MinesweeperAI

/-- Run a sequence of `(cell, clue)` observations through `add_knowledge`
starting from the freshly constructed agent. -/
def runTrace (obs : List (Cell × ℤ)) : MinesweeperAI :=
  obs.foldl (fun st p => st.add_knowledge p.1 p.2) initState

/-- The cells of a height × width board, as indexed by
`Minesweeper.__init__`: rows `0 ≤ i < height`, columns `0 ≤ j < width`. -/
def boardCells (height width : ℕ) : Finset Cell :=
  ((List.range height).flatMap fun i =>
    (List.range width).map fun j => cellOfNat i j).toFinset

/-- `Minesweeper.nearby_mines` for the board whose mine set is `B`: the number
of mines within one row and column of `cell`, the cell itself excluded and
out-of-bounds coordinates ignored. -/
def nearby_mines (height width : ℕ) (B : Finset Cell) (cell : Cell) : ℤ :=
  (((neigh9 cell).filter fun c =>
      c ≠ cell ∧ 0 ≤ c.1 ∧ c.1 < (height : ℤ) ∧ 0 ≤ c.2 ∧ c.2 < (width : ℤ)) ∩ B).card

/-- A sound observation sequence: the clues really come from one fixed
height × width board with mine set `B` (its `nearby_mines`), and every queried
cell is an actually safe board cell.  This is exactly the situation produced
by the game loop, which feeds the engine `board.nearby_mines(cell)` for
revealed non-mine cells; it is the full extent of §7's caller obligations and
imposes no restriction on the board dimensions. -/
def SoundObs (height width : ℕ) (B : Finset Cell) (obs : List (Cell × ℤ)) : Prop :=
  (∀ c ∈ B, c ∈ boardCells height width) ∧
    ∀ p ∈ obs, p.1 ∈ boardCells height width ∧ p.1 ∉ B ∧
      p.2 = nearby_mines height width B p.1

instance (height width : ℕ) (B : Finset Cell) (obs : List (Cell × ℤ)) :
    Decidable (SoundObs height width B obs) := by
  unfold SoundObs; infer_instance

/-- Truth of a sentence with respect to the board whose mine set is `B`:
exactly `count` of its cells are mines. -/
def SentTrue (B : Finset Cell) (s : Sentence) : Prop :=
  s.count = ((s.cells ∩ B).card : ℤ)

/-- The semantic invariant tying an agent state to the board `B`: every held
sentence is true, every cell in `safes` or `moves_made` is off the mine set,
and every cell in `mines` is on it. -/
def KBInv (B : Finset Cell) (st : MinesweeperAI) : Prop :=
  (∀ s ∈ st.knowledge, SentTrue B s) ∧ (∀ c ∈ st.safes, c ∉ B) ∧
    (∀ c ∈ st.mines, c ∈ B) ∧ (∀ c ∈ st.moves_made, c ∉ B)

/-- Growth of the derived-knowledge cell sets between two states. -/
def grows (a b : MinesweeperAI) : Prop :=
  a.safes ⊆ b.safes ∧ a.mines ⊆ b.mines

/-! ### Iteration-order lemmas -/

lemma mem_sortMultiset {m : Multiset Cell} {c : Cell} :
    c ∈ sortMultiset m ↔ c ∈ m := by
  induction m using Quotient.inductionOn with
  | h l =>
    show c ∈ List.insertionSort cellLe l ↔ _
    rw [(List.perm_insertionSort cellLe l).mem_iff]
    exact (Multiset.mem_coe).symm

lemma mem_sortCells {s : Finset Cell} {c : Cell} :
    c ∈ sortCells s ↔ c ∈ s :=
  mem_sortMultiset

/-! ### Sentence-level lemmas -/

lemma sentTrue_nonneg_le {B : Finset Cell} {s : Sentence} (h : SentTrue B s) :
    0 ≤ s.count ∧ s.count ≤ (s.cells.card : ℤ) := by
  unfold SentTrue at h
  have hle : (s.cells ∩ B).card ≤ s.cells.card :=
    Finset.card_le_card Finset.inter_subset_left
  omega

lemma erase_inter_of_not_mem {B : Finset Cell} {c : Cell} (hc : c ∉ B)
    (t : Finset Cell) : (t.erase c) ∩ B = t ∩ B := by
  ext x
  simp only [Finset.mem_inter, Finset.mem_erase]
  constructor
  · rintro ⟨⟨_, h1⟩, h2⟩
    exact ⟨h1, h2⟩
  · rintro ⟨h1, h2⟩
    exact ⟨⟨fun he => hc (he ▸ h2), h1⟩, h2⟩

lemma sentTrue_mark_safe {B : Finset Cell} {s : Sentence} {c : Cell}
    (hc : c ∉ B) (h : SentTrue B s) : SentTrue B (s.mark_safe c) := by
  unfold Sentence.mark_safe
  split_ifs with hif
  · show s.count = (((s.cells.erase c) ∩ B).card : ℤ)
    rw [erase_inter_of_not_mem hc]
    exact h
  · exact h

lemma sentTrue_mark_mine {B : Finset Cell} {s : Sentence} {c : Cell}
    (hc : c ∈ B) (h : SentTrue B s) : SentTrue B (s.mark_mine c) := by
  unfold Sentence.mark_mine
  split_ifs with hif
  · have hmem : c ∈ s.cells ∩ B := Finset.mem_inter.mpr ⟨hif, hc⟩
    have hiden : (s.cells.erase c) ∩ B = (s.cells ∩ B).erase c := by
      ext x
      simp only [Finset.mem_inter, Finset.mem_erase]
      tauto
    show s.count - 1 = (((s.cells.erase c) ∩ B).card : ℤ)
    rw [hiden, Finset.card_erase_of_mem hmem]
    have hpos : 1 ≤ (s.cells ∩ B).card := Finset.card_pos.mpr ⟨c, hmem⟩
    unfold SentTrue at h
    omega
  · exact h

lemma known_safes_sound {B : Finset Cell} {s : Sentence} (h : SentTrue B s) :
    ∀ c ∈ s.known_safes, c ∉ B := by
  unfold Sentence.known_safes
  split_ifs with h0
  · intro c hc hcB
    unfold SentTrue at h
    have hcard : (s.cells ∩ B).card = 0 := by omega
    have hmem : c ∈ s.cells ∩ B := Finset.mem_inter.mpr ⟨hc, hcB⟩
    rw [Finset.card_eq_zero.mp hcard] at hmem
    exact absurd hmem (Finset.not_mem_empty c)
  · intro c hc
    exact absurd hc (Finset.not_mem_empty c)

lemma known_mines_sound {B : Finset Cell} {s : Sentence} (h : SentTrue B s) :
    ∀ c ∈ s.known_mines, c ∈ B := by
  unfold Sentence.known_mines
  split_ifs with hfull
  · intro c hc
    unfold SentTrue at h
    have hle : s.cells.card ≤ (s.cells ∩ B).card := by omega
    have heq : s.cells ∩ B = s.cells :=
      Finset.eq_of_subset_of_card_le Finset.inter_subset_left hle
    have hmem : c ∈ s.cells ∩ B := by rw [heq]; exact hc
    exact (Finset.mem_inter.mp hmem).2
  · intro c hc
    exact absurd hc (Finset.not_mem_empty c)

/-- C2: the claim says `mark_safe(c)` removes `c` from `s.cells` whenever
`c ∈ s.cells`, regardless of `s.count`.  Counterexample: on the Sentence
`{(0,0)} = 0` the cell `(0,0)` is a member, yet `mark_safe((0,0))` leaves the
cell set unchanged because the source guards the removal with
`self.count != 0`. -/
theorem mark_safe_zero_count_cex :
    ((0 : ℤ), (0 : ℤ)) ∈ (⟨{((0 : ℤ), (0 : ℤ))}, 0⟩ : Sentence).cells ∧
      ((0 : ℤ), (0 : ℤ)) ∈
        ((⟨{((0 : ℤ), (0 : ℤ))}, 0⟩ : Sentence).mark_safe ((0 : ℤ), (0 : ℤ))).cells := by
  decide

/-- C2 (amended): `mark_safe(c)` removes `c` and keeps the count when
`s.count ≠ 0` and `c ∈ s.cells`; in every other case — in particular on every
count-zero Sentence — it is a no-op. -/
theorem mark_safe_guarded_spec (s : Sentence) (c : Cell) :
    (s.count ≠ 0 → c ∈ s.cells →
      (s.mark_safe c).cells = s.cells.erase c ∧ (s.mark_safe c).count = s.count) ∧
    (s.count = 0 ∨ c ∉ s.cells → s.mark_safe c = s) := by
  constructor
  · intro h0 hmem
    unfold Sentence.mark_safe
    rw [if_pos ⟨h0, hmem⟩]
    exact ⟨rfl, rfl⟩
  · intro hcase
    unfold Sentence.mark_safe
    rw [if_neg]
    rintro ⟨h0, hmem⟩
    rcases hcase with hcase | hcase
    · exact h0 hcase
    · exact hcase hmem

/-- Witness for the amended C2 theorem at the Sentence `{(0,0),(0,1)} = 1`
and the cell `(0,0)`, and its no-op half at the count-zero Sentence. -/
theorem mark_safe_guarded_spec_w :
    (((⟨{((0 : ℤ), (0 : ℤ)), ((0 : ℤ), (1 : ℤ))}, 1⟩ : Sentence).mark_safe
        ((0 : ℤ), (0 : ℤ))).cells =
      ({((0 : ℤ), (0 : ℤ)), ((0 : ℤ), (1 : ℤ))} : Finset Cell).erase ((0 : ℤ), (0 : ℤ)) ∧
      ((⟨{((0 : ℤ), (0 : ℤ)), ((0 : ℤ), (1 : ℤ))}, 1⟩ : Sentence).mark_safe
        ((0 : ℤ), (0 : ℤ))).count = 1) ∧
    (⟨{((0 : ℤ), (0 : ℤ))}, 0⟩ : Sentence).mark_safe ((0 : ℤ), (0 : ℤ)) =
      ⟨{((0 : ℤ), (0 : ℤ))}, 0⟩ :=
  ⟨(mark_safe_guarded_spec ⟨{((0 : ℤ), (0 : ℤ)), ((0 : ℤ), (1 : ℤ))}, 1⟩
      ((0 : ℤ), (0 : ℤ))).1 (by decide) (by decide),
    (mark_safe_guarded_spec ⟨{((0 : ℤ), (0 : ℤ))}, 0⟩ ((0 : ℤ), (0 : ℤ))).2
      (Or.inl rfl)⟩

/-- C5: the claim states `known_mines()` is non-empty iff
`count == |cells|` and `known_safes()` is non-empty iff `count == 0`.
Counterexample: the empty Sentence `{} = 0` satisfies both trigger
conditions, yet both methods return the empty set. -/
theorem known_sets_empty_cex :
    (((⟨∅, 0⟩ : Sentence).cells.card : ℤ) = (⟨∅, 0⟩ : Sentence).count ∧
      (⟨∅, 0⟩ : Sentence).known_mines = ∅) ∧
    ((⟨∅, 0⟩ : Sentence).count = 0 ∧ (⟨∅, 0⟩ : Sentence).known_safes = ∅) := by
  decide

/-- C5 (amended): for a Sentence with a nonempty cell set, `known_mines()` is
non-empty iff `count = |cells|` and `known_safes()` is non-empty iff
`count = 0`; in each trigger case the full cell set is returned and otherwise
the empty set is returned (the latter equalities hold for every Sentence, the
empty one included). -/
theorem known_sets_characterization (s : Sentence) :
    (s.cells ≠ ∅ →
      ((s.known_mines ≠ ∅ ↔ (s.cells.card : ℤ) = s.count) ∧
        (s.known_safes ≠ ∅ ↔ s.count = 0))) ∧
    ((s.cells.card : ℤ) = s.count → s.known_mines = s.cells) ∧
    ((s.cells.card : ℤ) ≠ s.count → s.known_mines = ∅) ∧
    (s.count = 0 → s.known_safes = s.cells) ∧
    (s.count ≠ 0 → s.known_safes = ∅) := by
  refine ⟨?_, ?_, ?_, ?_, ?_⟩
  · intro hne
    constructor
    · unfold Sentence.known_mines
      split_ifs with h
      · simp [hne, h]
      · simp [h]
    · unfold Sentence.known_safes
      split_ifs with h
      · simp [hne, h]
      · simp [h]
  · intro h
    unfold Sentence.known_mines
    rw [if_pos h]
  · intro h
    unfold Sentence.known_mines
    rw [if_neg h]
  · intro h
    unfold Sentence.known_safes
    rw [if_pos h]
  · intro h
    unfold Sentence.known_safes
    rw [if_neg h]

/-- Witness for the amended C5 theorem at the Sentences `{(0,0)} = 1` (full
count) and `{(0,0)} = 0` (zero count). -/
theorem known_sets_characterization_w :
    ((⟨{((0 : ℤ), (0 : ℤ))}, 1⟩ : Sentence).known_mines ≠ ∅ ↔
      (((⟨{((0 : ℤ), (0 : ℤ))}, 1⟩ : Sentence).cells.card : ℤ) =
        (⟨{((0 : ℤ), (0 : ℤ))}, 1⟩ : Sentence).count)) ∧
    (⟨{((0 : ℤ), (0 : ℤ))}, 0⟩ : Sentence).known_safes =
      (⟨{((0 : ℤ), (0 : ℤ))}, 0⟩ : Sentence).cells :=
  ⟨((known_sets_characterization ⟨{((0 : ℤ), (0 : ℤ))}, 1⟩).1 (by decide)).1,
    (known_sets_characterization ⟨{((0 : ℤ), (0 : ℤ))}, 0⟩).2.2.2.1 (by decide)⟩

/-- C4: `adjacent_cell` clips the neighborhood to the hardcoded window
`0..7` instead of the configured board bounds.  On a 3×3 board the cell
`(3,3)` is outside the board, yet it is produced as a neighbor of `(2,2)`,
so the Sentence built by `add_knowledge` is not restricted to
`[0,height) × [0,width)`. -/
theorem adjacent_cell_ignores_bounds :
    ((3 : ℤ), (3 : ℤ)) ∈ adjacent_cell ((2 : ℤ), (2 : ℤ)) ∧
      ((3 : ℤ), (3 : ℤ)) ∉ boardCells 3 3 := by
  decide

/-! ### Move-selection theorems -/

/-- C8: `make_safe_move()` returns `None` exactly when no cell of `safes` is
outside both `mines` and `moves_made`; any returned cell is such a cell.  The
function is read-only by construction: its embedding consumes the state and
returns only an `Option Cell`, mirroring the source, which never writes
`self`. -/
theorem make_safe_move_spec (st : MinesweeperAI) :
    (st.make_safe_move = none ↔ ∀ c ∈ st.safes, c ∈ st.mines ∨ c ∈ st.moves_made) ∧
    ∀ c, st.make_safe_move = some c →
      c ∈ st.safes ∧ c ∉ st.mines ∧ c ∉ st.moves_made := by
  constructor
  · unfold MinesweeperAI.make_safe_move
    rw [List.find?_eq_none]
    constructor
    · intro h c hc
      have := h c (mem_sortCells.mpr hc)
      by_cases h1 : c ∈ st.mines
      · exact Or.inl h1
      · by_cases h2 : c ∈ st.moves_made
        · exact Or.inr h2
        · exact absurd (by simp [h1, h2]) this
    · intro h c hc
      have hc2 := mem_sortCells.mp hc
      simp only [decide_eq_true_eq, not_and, not_not]
      intro h1
      rcases h c hc2 with h2 | h2
      · exact absurd h2 h1
      · exact h2
  · intro c h
    unfold MinesweeperAI.make_safe_move at h
    have h1 := List.find?_some h
    have h2 := List.mem_of_find?_eq_some h
    rw [mem_sortCells] at h2
    simp only [decide_eq_true_eq] at h1
    exact ⟨h2, h1.1, h1.2⟩

/-- Witness for the C8 theorem on a state with `safes = {(0,0)}` and
everything else empty, and on a state where the only safe cell is visited. -/
theorem make_safe_move_spec_w :
    ((⟨∅, ∅, {((0 : ℤ), (0 : ℤ))}, []⟩ : MinesweeperAI).make_safe_move = some ((0 : ℤ), (0 : ℤ)) →
      ((0 : ℤ), (0 : ℤ)) ∈ (⟨∅, ∅, {((0 : ℤ), (0 : ℤ))}, []⟩ : MinesweeperAI).safes ∧
        ((0 : ℤ), (0 : ℤ)) ∉ (⟨∅, ∅, {((0 : ℤ), (0 : ℤ))}, []⟩ : MinesweeperAI).mines ∧
        ((0 : ℤ), (0 : ℤ)) ∉ (⟨∅, ∅, {((0 : ℤ), (0 : ℤ))}, []⟩ : MinesweeperAI).moves_made) ∧
    ((0 : ℤ), (0 : ℤ)) ∈ (⟨∅, ∅, {((0 : ℤ), (0 : ℤ))}, []⟩ : MinesweeperAI).safes ∧
    (⟨∅, ∅, {((0 : ℤ), (0 : ℤ))}, []⟩ : MinesweeperAI).make_safe_move = some ((0 : ℤ), (0 : ℤ)) :=
  ⟨(make_safe_move_spec ⟨∅, ∅, {((0 : ℤ), (0 : ℤ))}, []⟩).2 ((0 : ℤ), (0 : ℤ)),
    by decide, by decide⟩

/-- The scan list of `make_random_move`: first coordinate over
`range(width)`, second over `range(height)`. -/
lemma mem_random_scan {height width : ℕ} {c : Cell}
    (h : c ∈ random_scan height width) :
    0 ≤ c.1 ∧ c.1 < (width : ℤ) ∧ 0 ≤ c.2 ∧ c.2 < (height : ℤ) := by
  unfold random_scan at h
  rw [List.mem_flatMap] at h
  obtain ⟨a, ha, hb⟩ := h
  rw [List.mem_map] at hb
  obtain ⟨b, hb, hc⟩ := hb
  rw [List.mem_range] at ha hb
  subst hc
  unfold cellOfNat
  refine ⟨Int.natCast_nonneg a, ?_, Int.natCast_nonneg b, ?_⟩
  · show (a : ℤ) < (width : ℤ)
    exact_mod_cast ha
  · show (b : ℤ) < (height : ℤ)
    exact_mod_cast hb

/-- C10: every cell `(i, j)` returned by `make_random_move` satisfies
`0 ≤ i < width` and `0 ≤ j < height`, because the source enumerates the first
coordinate over `range(self.width)` and the second over `range(self.height)`;
the returned pair is a board cell of `[0,height) × [0,width)` only when the
two ranges coincide. -/
theorem make_random_move_range (height width : ℕ) (st : MinesweeperAI) (i j : ℤ)
    (h : MinesweeperAI.make_random_move height width st = some (i, j)) :
    0 ≤ i ∧ i < (width : ℤ) ∧ 0 ≤ j ∧ j < (height : ℤ) := by
  unfold MinesweeperAI.make_random_move at h
  split at h
  · next c heq =>
    injection h with h
    subst h
    exact mem_random_scan (List.mem_of_find?_eq_some heq)
  · next heq =>
    exact mem_random_scan (List.mem_of_find?_eq_some h)

/-- Witness for the C10 theorem: on the fresh 1×1 agent the scan returns
`(0,0)`, which lies in the claimed ranges. -/
theorem make_random_move_range_w :
    0 ≤ (0 : ℤ) ∧ (0 : ℤ) < ((1 : ℕ) : ℤ) ∧ 0 ≤ (0 : ℤ) ∧ (0 : ℤ) < ((1 : ℕ) : ℤ) :=
  make_random_move_range 1 1 initState 0 0 (by decide)

/-! ### Preservation of the semantic invariant -/

lemma kbinv_mark_safe {B : Finset Cell} {st : MinesweeperAI} {c : Cell}
    (h : KBInv B st) (hc : c ∉ B) : KBInv B (st.mark_safe c) := by
  obtain ⟨hk, hs, hm, hv⟩ := h
  refine ⟨?_, ?_, hm, hv⟩
  · intro s hmem
    simp only [MinesweeperAI.mark_safe, List.mem_map] at hmem
    obtain ⟨t, ht, rfl⟩ := hmem
    exact sentTrue_mark_safe hc (hk t ht)
  · intro x hx
    rcases Finset.mem_insert.mp hx with rfl | hx
    · exact hc
    · exact hs x hx

lemma kbinv_mark_mine {B : Finset Cell} {st : MinesweeperAI} {c : Cell}
    (h : KBInv B st) (hc : c ∈ B) : KBInv B (st.mark_mine c) := by
  obtain ⟨hk, hs, hm, hv⟩ := h
  refine ⟨?_, hs, ?_, hv⟩
  · intro s hmem
    simp only [MinesweeperAI.mark_mine, List.mem_append, List.mem_map,
      List.mem_singleton] at hmem
    rcases hmem with ⟨t, ht, rfl⟩ | rfl
    · exact sentTrue_mark_mine hc (hk t ht)
    · show (1 : ℤ) = ((({c} : Finset Cell) ∩ B).card : ℤ)
      rw [Finset.singleton_inter_of_mem hc]
      simp
  · intro x hx
    rcases Finset.mem_insert.mp hx with rfl | hx
    · exact hc
    · exact hm x hx

lemma kbinv_fold_mark_safes {B : Finset Cell} :
    ∀ (cs : List Cell) (st : MinesweeperAI), (∀ c ∈ cs, c ∉ B) → KBInv B st →
      KBInv B (st.fold_mark_safes cs) := by
  intro cs
  induction cs with
  | nil => intro st _ h; exact h
  | cons c cs ih =>
    intro st hcs h
    unfold MinesweeperAI.fold_mark_safes at ih ⊢
    simp only [List.foldl_cons]
    apply ih
    · intro x hx
      exact hcs x (List.mem_cons_of_mem c hx)
    · by_cases hmem : c ∈ st.safes
      · rw [if_pos hmem]; exact h
      · rw [if_neg hmem]
        exact kbinv_mark_safe h (hcs c (List.mem_cons_self c cs))

lemma kbinv_fold_mark_mines {B : Finset Cell} :
    ∀ (cs : List Cell) (st : MinesweeperAI), (∀ c ∈ cs, c ∈ B) → KBInv B st →
      KBInv B (st.fold_mark_mines cs) := by
  intro cs
  induction cs with
  | nil => intro st _ h; exact h
  | cons c cs ih =>
    intro st hcs h
    unfold MinesweeperAI.fold_mark_mines at ih ⊢
    simp only [List.foldl_cons]
    apply ih
    · intro x hx
      exact hcs x (List.mem_cons_of_mem c hx)
    · by_cases hmem : c ∈ st.mines
      · rw [if_pos hmem]; exact h
      · rw [if_neg hmem]
        exact kbinv_mark_mine h (hcs c (List.mem_cons_self c cs))

lemma kbinv_process {B : Finset Cell} (st : MinesweeperAI) (idx : ℕ)
    (h : KBInv B st) : KBInv B (st.process_sentence idx) := by
  unfold MinesweeperAI.process_sentence
  split
  · exact h
  next s hg =>
    have hmem : s ∈ st.knowledge := List.get?_mem hg
    have htrue : SentTrue B s := h.1 s hmem
    have h1 : KBInv B (st.fold_mark_safes (sortCells s.known_safes)) := by
      apply kbinv_fold_mark_safes _ _ _ h
      intro c hc
      rw [mem_sortCells] at hc
      exact known_safes_sound htrue c hc
    split
    · exact h1
    next s2 hg2 =>
      have hmem2 : s2 ∈ (st.fold_mark_safes (sortCells s.known_safes)).knowledge :=
        List.get?_mem hg2
      have htrue2 : SentTrue B s2 := h1.1 s2 hmem2
      apply kbinv_fold_mark_mines _ _ _ h1
      intro c hc
      rw [mem_sortCells] at hc
      exact known_mines_sound htrue2 c hc

lemma kbinv_foldl {B : Finset Cell} {α : Type} (f : MinesweeperAI → α → MinesweeperAI)
    (hf : ∀ (st : MinesweeperAI) (a : α), KBInv B st → KBInv B (f st a)) :
    ∀ (l : List α) (st : MinesweeperAI), KBInv B st → KBInv B (l.foldl f st) := by
  intro l
  induction l with
  | nil => intro st h; exact h
  | cons a l ih =>
    intro st h
    simp only [List.foldl_cons]
    exact ih _ (hf st a h)

lemma kbinv_update_safes {B : Finset Cell} {st : MinesweeperAI}
    (h : KBInv B st) : KBInv B st.update_safes :=
  kbinv_foldl MinesweeperAI.process_sentence
    (fun st idx h => kbinv_process st idx h) _ st h

lemma sentTrue_derived {B : Finset Cell} {s1 s2 : Sentence}
    (h1 : SentTrue B s1) (h2 : SentTrue B s2) (hsub : s1.cells ⊆ s2.cells) :
    SentTrue B ⟨MinesweeperAI.diff s1.cells s2.cells, s2.count - s1.count⟩ := by
  have hsetid : (s2.cells \ s1.cells) ∩ B = (s2.cells ∩ B) \ (s1.cells ∩ B) := by
    ext x
    simp only [Finset.mem_inter, Finset.mem_sdiff]
    tauto
  have hsubB : s1.cells ∩ B ⊆ s2.cells ∩ B :=
    Finset.inter_subset_inter hsub (Finset.Subset.refl B)
  have hcard := Finset.card_sdiff hsubB
  have hle := Finset.card_le_card hsubB
  show s2.count - s1.count = (((s2.cells \ s1.cells) ∩ B).card : ℤ)
  rw [hsetid]
  unfold SentTrue at h1 h2
  omega

lemma kbinv_derive_pass {B : Finset Cell} {st : MinesweeperAI}
    (h : KBInv B st) : KBInv B st.derive_pass := by
  obtain ⟨hk, hs, hm, hv⟩ := h
  refine ⟨?_, hs, hm, hv⟩
  intro s hmem
  simp only [MinesweeperAI.derive_pass, List.mem_append] at hmem
  rcases hmem with hmem | hmem
  · exact hk s hmem
  · rw [List.mem_flatMap] at hmem
    obtain ⟨s1, hs1, hmem⟩ := hmem
    rw [List.mem_filterMap] at hmem
    obtain ⟨s2, hs2, hif⟩ := hmem
    by_cases hok : pair_ok s1 s2
    · rw [if_pos hok] at hif
      injection hif with hif
      subst hif
      have hconj := of_decide_eq_true hok
      exact sentTrue_derived (hk s1 hs1) (hk s2 hs2) hconj.2.2.2.1
    · rw [if_neg hok] at hif
      exact absurd hif (by simp)

lemma mem_prune_fold (x : Sentence) :
    ∀ (l acc : List Sentence),
      x ∈ l.foldl (fun res i => if i ∈ res ∨ i.cells = ∅ then res else res ++ [i]) acc →
      x ∈ acc ∨ x ∈ l := by
  intro l
  induction l with
  | nil => intro acc h; exact Or.inl h
  | cons i l ih =>
    intro acc h
    simp only [List.foldl_cons] at h
    by_cases hc : i ∈ acc ∨ i.cells = ∅
    · rw [if_pos hc] at h
      rcases ih acc h with h | h
      · exact Or.inl h
      · exact Or.inr (List.mem_cons_of_mem i h)
    · rw [if_neg hc] at h
      rcases ih (acc ++ [i]) h with h | h
      · rcases List.mem_append.mp h with h | h
        · exact Or.inl h
        · rw [List.mem_singleton] at h
          exact Or.inr (h ▸ List.mem_cons_self i l)
      · exact Or.inr (List.mem_cons_of_mem i h)

lemma kbinv_prune_pass {B : Finset Cell} {st : MinesweeperAI}
    (h : KBInv B st) : KBInv B st.prune_pass := by
  obtain ⟨hk, hs, hm, hv⟩ := h
  refine ⟨?_, hs, hm, hv⟩
  intro s hmem
  simp only [MinesweeperAI.prune_pass] at hmem
  rcases mem_prune_fold s st.knowledge [] hmem with h | h
  · exact absurd h (List.not_mem_nil s)
  · exact hk s h

lemma kbinv_saturation_round {B : Finset Cell} {st : MinesweeperAI}
    (h : KBInv B st) : KBInv B st.saturation_round :=
  kbinv_update_safes (kbinv_prune_pass (kbinv_derive_pass h))

lemma kbinv_saturate {B : Finset Cell} {st : MinesweeperAI}
    (h : KBInv B st) : KBInv B st.saturate :=
  kbinv_saturation_round (kbinv_saturation_round (kbinv_saturation_round h))

/-! ### Invariance through add_knowledge and sound traces -/

lemma add_step_eq (st : MinesweeperAI) (cell : Cell) (n : ℤ) :
    st.add_step cell n =
      (if st.new_sentence cell n ∈
          (({ st with moves_made := insert cell st.moves_made } :
            MinesweeperAI).mark_safe cell).knowledge
       then ({ st with moves_made := insert cell st.moves_made} :
          MinesweeperAI).mark_safe cell
       else { ({ st with moves_made := insert cell st.moves_made} :
            MinesweeperAI).mark_safe cell with
          knowledge := (({ st with moves_made := insert cell st.moves_made} :
            MinesweeperAI).mark_safe cell).knowledge ++ [st.new_sentence cell n] }) :=
  rfl

lemma add_knowledge_eq (st : MinesweeperAI) (cell : Cell) (n : ℤ) :
    st.add_knowledge cell n =
      if (MinesweeperAI.make_safe_move
            (MinesweeperAI.update_safes (st.add_step cell n))).isNone
      then MinesweeperAI.saturate (MinesweeperAI.update_safes (st.add_step cell n))
      else MinesweeperAI.update_safes (st.add_step cell n) :=
  rfl

lemma mem_boardCells {h w : ℕ} {c : Cell} :
    c ∈ boardCells h w ↔ 0 ≤ c.1 ∧ c.1 < (h : ℤ) ∧ 0 ≤ c.2 ∧ c.2 < (w : ℤ) := by
  unfold boardCells
  rw [List.mem_toFinset, List.mem_flatMap]
  constructor
  · rintro ⟨a, ha, hb⟩
    rw [List.mem_map] at hb
    obtain ⟨b, hb, hc⟩ := hb
    rw [List.mem_range] at ha hb
    subst hc
    unfold cellOfNat
    refine ⟨Int.natCast_nonneg a, ?_, Int.natCast_nonneg b, ?_⟩
    · show (a : ℤ) < (h : ℤ)
      exact_mod_cast ha
    · show (b : ℤ) < (w : ℤ)
      exact_mod_cast hb
  · rintro ⟨h1, h2, h3, h4⟩
    refine ⟨c.1.toNat, ?_, ?_⟩
    · rw [List.mem_range]; omega
    · rw [List.mem_map]
      refine ⟨c.2.toNat, by rw [List.mem_range]; omega, ?_⟩
      unfold cellOfNat
      have e1 : (c.1.toNat : ℤ) = c.1 := Int.toNat_of_nonneg h1
      have e2 : (c.2.toNat : ℤ) = c.2 := Int.toNat_of_nonneg h3
      rw [e1, e2]

lemma new_sentence_inter {h w : ℕ} {B M : Finset Cell} {cell : Cell}
    (hh : h ≤ 8) (hw : w ≤ 8) (hB : ∀ c ∈ B, c ∈ boardCells h w)
    (hM : ∀ c ∈ M, c ∉ B) (hcellM : cell ∈ M) :
    ((adjacent_cell cell).filter (fun c => c ∉ M)) ∩ B =
      ((neigh9 cell).filter fun c =>
        c ≠ cell ∧ 0 ≤ c.1 ∧ c.1 < (h : ℤ) ∧ 0 ≤ c.2 ∧ c.2 < (w : ℤ)) ∩ B := by
  have hh8 : (h : ℤ) ≤ 8 := by exact_mod_cast hh
  have hw8 : (w : ℤ) ≤ 8 := by exact_mod_cast hw
  ext x
  simp only [adjacent_cell, Finset.mem_inter, Finset.mem_filter]
  constructor
  · rintro ⟨⟨⟨hx9, hclip⟩, hxM⟩, hxB⟩
    have hboard := mem_boardCells.mp (hB x hxB)
    exact ⟨⟨hx9, fun he => hxM (he ▸ hcellM), hboard.1, hboard.2.1,
      hboard.2.2.1, hboard.2.2.2⟩, hxB⟩
  · rintro ⟨⟨hx9, hne, h1, h2, h3, h4⟩, hxB⟩
    refine ⟨⟨⟨hx9, ?_⟩, fun hxM => hM x hxM hxB⟩, hxB⟩
    omega

lemma kbinv_add_step {B : Finset Cell} {st : MinesweeperAI} {cell : Cell} {n : ℤ}
    {h w : ℕ} (hi : KBInv B st) (hh : h ≤ 8) (hw : w ≤ 8)
    (hB : ∀ c ∈ B, c ∈ boardCells h w) (hcB : cell ∉ B)
    (hn : n = nearby_mines h w B cell) : KBInv B (st.add_step cell n) := by
  obtain ⟨hk, hs, hm, hv⟩ := hi
  have hv1 : ∀ c ∈ insert cell st.moves_made, c ∉ B := by
    intro c hc
    rcases Finset.mem_insert.mp hc with rfl | hc
    · exact hcB
    · exact hv c hc
  have hi1 : KBInv B { st with moves_made := insert cell st.moves_made } :=
    ⟨hk, hs, hm, hv1⟩
  have hi2 := kbinv_mark_safe hi1 hcB
  have hnewTrue : SentTrue B (st.new_sentence cell n) := by
    show n = (((adjacent_cell cell).filter
      (fun c => c ∉ insert cell st.moves_made) ∩ B).card : ℤ)
    rw [new_sentence_inter hh hw hB hv1 (Finset.mem_insert_self cell st.moves_made)]
    rw [hn]
    rfl
  rw [add_step_eq]
  split_ifs with hmem
  · exact hi2
  · obtain ⟨hk2, hs2, hm2, hv2⟩ := hi2
    refine ⟨?_, hs2, hm2, hv2⟩
    intro s hsmem
    rcases List.mem_append.mp hsmem with hsmem | hsmem
    · exact hk2 s hsmem
    · rw [List.mem_singleton] at hsmem
      exact hsmem ▸ hnewTrue

lemma kbinv_add_knowledge {B : Finset Cell} {st : MinesweeperAI} {cell : Cell}
    {n : ℤ} {h w : ℕ} (hi : KBInv B st) (hh : h ≤ 8) (hw : w ≤ 8)
    (hB : ∀ c ∈ B, c ∈ boardCells h w) (hcB : cell ∉ B)
    (hn : n = nearby_mines h w B cell) : KBInv B (st.add_knowledge cell n) := by
  rw [add_knowledge_eq]
  have h4 := kbinv_update_safes (kbinv_add_step hi hh hw hB hcB hn)
  split_ifs with hnone
  · exact kbinv_saturate h4
  · exact h4

lemma kbinv_initState (B : Finset Cell) : KBInv B initState := by
  refine ⟨?_, ?_, ?_, ?_⟩
  · intro s hs
    exact absurd hs (List.not_mem_nil s)
  · intro c hc
    exact absurd hc (Finset.not_mem_empty c)
  · intro c hc
    exact absurd hc (Finset.not_mem_empty c)
  · intro c hc
    exact absurd hc (Finset.not_mem_empty c)

lemma kbinv_runTrace {height width : ℕ} {B : Finset Cell} {obs : List (Cell × ℤ)}
    (hh : height ≤ 8) (hw : width ≤ 8) (hs : SoundObs height width B obs) :
    KBInv B (runTrace obs) := by
  obtain ⟨hB, hobs⟩ := hs
  unfold runTrace
  have haux : ∀ (l : List (Cell × ℤ)) (st : MinesweeperAI), KBInv B st →
      (∀ p ∈ l, p.1 ∈ boardCells height width ∧ p.1 ∉ B ∧
        p.2 = nearby_mines height width B p.1) →
      KBInv B (l.foldl (fun st p => st.add_knowledge p.1 p.2) st) := by
    intro l
    induction l with
    | nil => intro st h _; exact h
    | cons p l ih =>
      intro st h hl
      simp only [List.foldl_cons]
      have hp := hl p (List.mem_cons_self p l)
      exact ih _ (kbinv_add_knowledge h hh hw hB hp.2.1 hp.2.2)
        (fun q hq => hl q (List.mem_cons_of_mem p hq))
  exact haux obs initState (kbinv_initState B) hobs

/-- On a board no larger than the `0..7` window that `adjacent_cell`
hardcodes, every Sentence held along a board-sound observation sequence
satisfies `0 ≤ count ≤ |cells|`; the proof goes through `kbinv_add_knowledge`,
which preserves the stronger truth invariant through construction, both
marking propagations, and every saturation round.  Off that window the bound
fails (see `count_invariant_fails_off_window`): the dimension hypotheses are
load-bearing, not a formality. -/
lemma sentence_count_invariant (height width : ℕ) (B : Finset Cell)
    (obs : List (Cell × ℤ)) (hh : height ≤ 8) (hw : width ≤ 8)
    (hs : SoundObs height width B obs) :
    ∀ s ∈ (runTrace obs).knowledge, 0 ≤ s.count ∧ s.count ≤ (s.cells.card : ℤ) :=
  fun s hmem => sentTrue_nonneg_le ((kbinv_runTrace hh hw hs).1 s hmem)

/-- Concrete instance of `sentence_count_invariant`: one mine at `(1,1)` on
the default 8×8 board, a single observation of `(0,0)` with its true
clue `1`. -/
lemma sentence_count_invariant_ex :
    SoundObs 8 8 {((1 : ℤ), (1 : ℤ))} [(((0 : ℤ), (0 : ℤ)), 1)] ∧
      ∀ s ∈ (runTrace [(((0 : ℤ), (0 : ℤ)), 1)]).knowledge,
        0 ≤ s.count ∧ s.count ≤ (s.cells.card : ℤ) :=
  ⟨by decide, sentence_count_invariant 8 8 {((1 : ℤ), (1 : ℤ))}
    [(((0 : ℤ), (0 : ℤ)), 1)] (by decide) (by decide) (by decide)⟩

/-! ### Growth of safes and mines -/

lemma grows_refl (st : MinesweeperAI) : grows st st :=
  ⟨Finset.Subset.refl _, Finset.Subset.refl _⟩

lemma grows_trans {a b c : MinesweeperAI} (h1 : grows a b) (h2 : grows b c) :
    grows a c :=
  ⟨h1.1.trans h2.1, h1.2.trans h2.2⟩

lemma grows_mark_safe (st : MinesweeperAI) (c : Cell) : grows st (st.mark_safe c) :=
  ⟨Finset.subset_insert c st.safes, Finset.Subset.refl _⟩

lemma grows_mark_mine (st : MinesweeperAI) (c : Cell) : grows st (st.mark_mine c) :=
  ⟨Finset.Subset.refl _, Finset.subset_insert c st.mines⟩

lemma grows_foldl {α : Type} (f : MinesweeperAI → α → MinesweeperAI)
    (hf : ∀ st a, grows st (f st a)) :
    ∀ (l : List α) (st : MinesweeperAI), grows st (l.foldl f st) := by
  intro l
  induction l with
  | nil => intro st; exact grows_refl st
  | cons a l ih =>
    intro st
    simp only [List.foldl_cons]
    exact grows_trans (hf st a) (ih (f st a))

lemma grows_fold_mark_safes (st : MinesweeperAI) (cs : List Cell) :
    grows st (st.fold_mark_safes cs) := by
  apply grows_foldl
  intro st c
  by_cases h : c ∈ st.safes
  · rw [if_pos h]; exact grows_refl st
  · rw [if_neg h]; exact grows_mark_safe st c

lemma grows_fold_mark_mines (st : MinesweeperAI) (cs : List Cell) :
    grows st (st.fold_mark_mines cs) := by
  apply grows_foldl
  intro st c
  by_cases h : c ∈ st.mines
  · rw [if_pos h]; exact grows_refl st
  · rw [if_neg h]; exact grows_mark_mine st c

lemma grows_process (st : MinesweeperAI) (idx : ℕ) :
    grows st (st.process_sentence idx) := by
  unfold MinesweeperAI.process_sentence
  split
  · exact grows_refl st
  next s hg =>
    split
    · exact grows_fold_mark_safes st _
    next s2 hg2 =>
      exact grows_trans (grows_fold_mark_safes st _) (grows_fold_mark_mines _ _)

lemma grows_update_safes (st : MinesweeperAI) : grows st st.update_safes :=
  grows_foldl MinesweeperAI.process_sentence grows_process _ st

lemma grows_derive_pass (st : MinesweeperAI) : grows st st.derive_pass :=
  ⟨Finset.Subset.refl _, Finset.Subset.refl _⟩

lemma grows_prune_pass (st : MinesweeperAI) : grows st st.prune_pass :=
  ⟨Finset.Subset.refl _, Finset.Subset.refl _⟩

lemma grows_saturation_round (st : MinesweeperAI) : grows st st.saturation_round :=
  grows_trans (grows_derive_pass st)
    (grows_trans (grows_prune_pass st.derive_pass)
      (grows_update_safes st.derive_pass.prune_pass))

lemma grows_saturate (st : MinesweeperAI) : grows st st.saturate :=
  grows_trans (grows_saturation_round st)
    (grows_trans (grows_saturation_round st.saturation_round)
      (grows_saturation_round st.saturation_round.saturation_round))

lemma grows_add_step (st : MinesweeperAI) (cell : Cell) (n : ℤ) :
    grows st (st.add_step cell n) := by
  rw [add_step_eq]
  have hbase : grows st (({ st with moves_made := insert cell st.moves_made} :
      MinesweeperAI).mark_safe cell) :=
    grows_trans (grows_refl st)
      (grows_mark_safe { st with moves_made := insert cell st.moves_made} cell)
  split_ifs with hmem
  · exact hbase
  · exact grows_trans hbase ⟨Finset.Subset.refl _, Finset.Subset.refl _⟩

lemma grows_add_knowledge (st : MinesweeperAI) (cell : Cell) (n : ℤ) :
    grows st (st.add_knowledge cell n) := by
  rw [add_knowledge_eq]
  have h4 : grows st (MinesweeperAI.update_safes (st.add_step cell n)) :=
    grows_trans (grows_add_step st cell n) (grows_update_safes _)
  split_ifs with hnone
  · exact grows_trans h4 (grows_saturate _)
  · exact h4

/-- `safes` and `mines` are monotone under every state-mutating operation of
the KnowledgeBase (`add_knowledge` and the two marking operations; the move
queries return no state in the embedding because the source never writes
state in them), and on board-sound observation sequences over boards no
larger than the hardcoded `0..7` clipping window the two sets stay disjoint.
Off that window disjointness fails (see `disjointness_fails_off_window`). -/
lemma safes_mines_monotone_disjoint :
    (∀ (st : MinesweeperAI) (cell : Cell) (count : ℤ),
      st.safes ⊆ (st.add_knowledge cell count).safes ∧
        st.mines ⊆ (st.add_knowledge cell count).mines) ∧
    (∀ (st : MinesweeperAI) (cell : Cell),
      st.safes ⊆ (st.mark_safe cell).safes ∧ st.mines ⊆ (st.mark_safe cell).mines ∧
        st.safes ⊆ (st.mark_mine cell).safes ∧ st.mines ⊆ (st.mark_mine cell).mines) ∧
    ∀ (height width : ℕ) (B : Finset Cell) (obs : List (Cell × ℤ)),
      height ≤ 8 → width ≤ 8 → SoundObs height width B obs →
        (runTrace obs).safes ∩ (runTrace obs).mines = ∅ := by
  refine ⟨?_, ?_, ?_⟩
  · intro st cell count
    exact grows_add_knowledge st cell count
  · intro st cell
    exact ⟨(grows_mark_safe st cell).1, (grows_mark_safe st cell).2,
      (grows_mark_mine st cell).1, (grows_mark_mine st cell).2⟩
  · intro height width B obs hh hw hs
    have hi := kbinv_runTrace hh hw hs
    rw [Finset.eq_empty_iff_forall_not_mem]
    intro x hx
    rw [Finset.mem_inter] at hx
    exact hi.2.1 x hx.1 (hi.2.2.1 x hx.2)

/-- Concrete instance of `safes_mines_monotone_disjoint`: monotonicity at a
concrete marking and a concrete `add_knowledge` call, disjointness on a
one-observation sound 8×8 trace. -/
lemma safes_mines_monotone_disjoint_ex :
    (initState.safes ⊆ (initState.add_knowledge ((0 : ℤ), (0 : ℤ)) 0).safes ∧
      initState.mines ⊆ (initState.add_knowledge ((0 : ℤ), (0 : ℤ)) 0).mines) ∧
    initState.safes ⊆ (initState.mark_safe ((0 : ℤ), (0 : ℤ))).safes ∧
    (runTrace [(((0 : ℤ), (0 : ℤ)), 0)]).safes ∩
      (runTrace [(((0 : ℤ), (0 : ℤ)), 0)]).mines = ∅ :=
  ⟨safes_mines_monotone_disjoint.1 initState ((0 : ℤ), (0 : ℤ)) 0,
    (safes_mines_monotone_disjoint.2.1 initState ((0 : ℤ), (0 : ℤ))).1,
    safes_mines_monotone_disjoint.2.2 8 8 ∅ [(((0 : ℤ), (0 : ℤ)), 0)]
      (by decide) (by decide) (by decide)⟩

/-! ### Subset rule, exhaustion, idempotence -/

/-- C3: whenever the pair loop of a saturation round sees two distinct held
Sentences with `S1.cells` a strict smaller-size subset of `S2.cells`, the
Sentence `⟨S2.cells − S1.cells, S2.count − S1.count⟩` is in the collection
immediately after the loop (for an empty `S1`, which the loop's
`len(s1.cells) > 0` guard skips, that Sentence is `S2` itself and is already
held; the hypothesis `S1.cells = ∅ → S1.count = 0` is the count invariant of
C1).  In the concrete instance `{A,B}=1`, `{A,B,C}=2` with `A=(0,0)`,
`B=(0,1)`, `C=(0,2)`, the pass derives `{C}=1` and after the saturation
rounds `C` is in `mines`. -/
theorem subset_rule_derives (st : MinesweeperAI) (s1 s2 : Sentence)
    (h1 : s1 ∈ st.knowledge) (h2 : s2 ∈ st.knowledge) (hne : s1 ≠ s2)
    (hsub : s1.cells ⊆ s2.cells) (hlt : s1.cells.card < s2.cells.card)
    (hemp : s1.cells = ∅ → s1.count = 0) :
    (⟨s2.cells \ s1.cells, s2.count - s1.count⟩ : Sentence) ∈
        st.derive_pass.knowledge ∧
      ((0 : ℤ), (2 : ℤ)) ∈ (MinesweeperAI.saturate
        ⟨∅, ∅, ∅, [⟨{((0 : ℤ), (0 : ℤ)), ((0 : ℤ), (1 : ℤ))}, 1⟩,
          ⟨{((0 : ℤ), (0 : ℤ)), ((0 : ℤ), (1 : ℤ)), ((0 : ℤ), (2 : ℤ))}, 2⟩]⟩).mines := by
  constructor
  · simp only [MinesweeperAI.derive_pass]
    by_cases hcells : s1.cells = ∅
    · have hc0 := hemp hcells
      have heq : (⟨s2.cells \ s1.cells, s2.count - s1.count⟩ : Sentence) = s2 := by
        rw [hcells, hc0, Finset.sdiff_empty, sub_zero]
      rw [heq]
      exact List.mem_append_left _ h2
    · apply List.mem_append_right
      rw [List.mem_flatMap]
      refine ⟨s1, h1, ?_⟩
      rw [List.mem_filterMap]
      refine ⟨s2, h2, ?_⟩
      have hok : pair_ok s1 s2 = true := by
        unfold pair_ok
        rw [decide_eq_true_eq]
        exact ⟨Finset.card_pos.mpr (Finset.nonempty_iff_ne_empty.mpr hcells),
          Nat.lt_trans (Finset.card_pos.mpr
            (Finset.nonempty_iff_ne_empty.mpr hcells)) hlt,
          hne, hsub, Nat.ne_of_lt hlt⟩
      rw [if_pos hok]
      rfl
  · decide

/-- Witness for the C3 theorem: the general half applied to the concrete
`{A,B}=1 ⊂ {A,B,C}=2` pair, every hypothesis discharged by computation. -/
theorem subset_rule_derives_w :
    (⟨({((0 : ℤ), (0 : ℤ)), ((0 : ℤ), (1 : ℤ)), ((0 : ℤ), (2 : ℤ))} : Finset Cell) \
        {((0 : ℤ), (0 : ℤ)), ((0 : ℤ), (1 : ℤ))}, 2 - 1⟩ : Sentence) ∈
      (MinesweeperAI.derive_pass
        ⟨∅, ∅, ∅, [⟨{((0 : ℤ), (0 : ℤ)), ((0 : ℤ), (1 : ℤ))}, 1⟩,
          ⟨{((0 : ℤ), (0 : ℤ)), ((0 : ℤ), (1 : ℤ)), ((0 : ℤ), (2 : ℤ))}, 2⟩]⟩).knowledge :=
  (subset_rule_derives
    ⟨∅, ∅, ∅, [⟨{((0 : ℤ), (0 : ℤ)), ((0 : ℤ), (1 : ℤ))}, 1⟩,
      ⟨{((0 : ℤ), (0 : ℤ)), ((0 : ℤ), (1 : ℤ)), ((0 : ℤ), (2 : ℤ))}, 2⟩]⟩
    ⟨{((0 : ℤ), (0 : ℤ)), ((0 : ℤ), (1 : ℤ))}, 1⟩
    ⟨{((0 : ℤ), (0 : ℤ)), ((0 : ℤ), (1 : ℤ)), ((0 : ℤ), (2 : ℤ))}, 2⟩
    (by decide) (by decide) (by decide) (by decide) (by decide) (by decide)).1

/-- C7: the exhaustion claim fails off the 8×8 default.  On the mine-free 2×3
board, soundly querying all six board cells leaves every board cell in
`moves_made`, yet `make_safe_move()` returns `(0,3)` — an off-board cell kept
in `safes` by the `0..7`-hardcoded clipping of `adjacent_cell` — and
`make_random_move()` returns `(2,0)`, outside the board because the scan runs
the first coordinate over `range(width)`.  Neither returns the no-move
signal. -/
theorem exhaustion_fails_off_board :
    SoundObs 2 3 ∅
        [(((0 : ℤ), (0 : ℤ)), 0), (((0 : ℤ), (1 : ℤ)), 0), (((0 : ℤ), (2 : ℤ)), 0),
          (((1 : ℤ), (0 : ℤ)), 0), (((1 : ℤ), (1 : ℤ)), 0), (((1 : ℤ), (2 : ℤ)), 0)] ∧
      (∀ c ∈ boardCells 2 3,
        c ∈ (runTrace
          [(((0 : ℤ), (0 : ℤ)), 0), (((0 : ℤ), (1 : ℤ)), 0), (((0 : ℤ), (2 : ℤ)), 0),
            (((1 : ℤ), (0 : ℤ)), 0), (((1 : ℤ), (1 : ℤ)), 0),
            (((1 : ℤ), (2 : ℤ)), 0)]).moves_made ∨
        c ∈ (runTrace
          [(((0 : ℤ), (0 : ℤ)), 0), (((0 : ℤ), (1 : ℤ)), 0), (((0 : ℤ), (2 : ℤ)), 0),
            (((1 : ℤ), (0 : ℤ)), 0), (((1 : ℤ), (1 : ℤ)), 0),
            (((1 : ℤ), (2 : ℤ)), 0)]).mines) ∧
      (runTrace
        [(((0 : ℤ), (0 : ℤ)), 0), (((0 : ℤ), (1 : ℤ)), 0), (((0 : ℤ), (2 : ℤ)), 0),
          (((1 : ℤ), (0 : ℤ)), 0), (((1 : ℤ), (1 : ℤ)), 0),
          (((1 : ℤ), (2 : ℤ)), 0)]).make_safe_move = some ((0 : ℤ), (3 : ℤ)) ∧
      MinesweeperAI.make_random_move 2 3 (runTrace
        [(((0 : ℤ), (0 : ℤ)), 0), (((0 : ℤ), (1 : ℤ)), 0), (((0 : ℤ), (2 : ℤ)), 0),
          (((1 : ℤ), (0 : ℤ)), 0), (((1 : ℤ), (1 : ℤ)), 0),
          (((1 : ℤ), (2 : ℤ)), 0)]) = some ((2 : ℤ), (0 : ℤ)) ∧
      ((0 : ℤ), (3 : ℤ)) ∉ boardCells 2 3 ∧ ((2 : ℤ), (0 : ℤ)) ∉ boardCells 2 3 := by
  decide

/-- C9: counterexample to idempotence.  On the 8×8 board with mines at
`(1,1)`, `(3,4)`, `(4,3)`, the sound trace below ends with two identical
consecutive calls `add_knowledge((4,4), 2)`.  Both calls build the same
resulting Sentence (over `{(3,3),(3,4),(4,3),(5,3)}` with count 2 — conjunct
two), the first call's copy mutates away, the second call re-adds it, and the
second call's direct-consequence pass then folds in the previously unfolded
fact that `(3,3)` is safe, removing `(3,3)` from the re-added copy.  After the
second call the knowledge collection holds the resulting Sentence zero times,
not exactly once as claimed. -/
theorem add_knowledge_twice_cex :
    SoundObs 8 8 {((1 : ℤ), (1 : ℤ)), ((3 : ℤ), (4 : ℤ)), ((4 : ℤ), (3 : ℤ))}
        [(((0 : ℤ), (7 : ℤ)), 0),
          (((1 : ℤ), (2 : ℤ)), 1),
          (((1 : ℤ), (3 : ℤ)), 0),
          (((1 : ℤ), (4 : ℤ)), 0),
          (((2 : ℤ), (2 : ℤ)), 1),
          (((2 : ℤ), (4 : ℤ)), 1),
          (((3 : ℤ), (2 : ℤ)), 1),
          (((2 : ℤ), (3 : ℤ)), 1),
          (((3 : ℤ), (6 : ℤ)), 0),
          (((4 : ℤ), (6 : ℤ)), 0),
          (((5 : ℤ), (6 : ℤ)), 0),
          (((5 : ℤ), (5 : ℤ)), 0),
          (((5 : ℤ), (4 : ℤ)), 1),
          (((3 : ℤ), (5 : ℤ)), 1),
          (((4 : ℤ), (5 : ℤ)), 1),
          (((4 : ℤ), (4 : ℤ)), 2),
          (((4 : ℤ), (4 : ℤ)), 2)] ∧
      MinesweeperAI.new_sentence (runTrace
        [(((0 : ℤ), (7 : ℤ)), 0),
          (((1 : ℤ), (2 : ℤ)), 1),
          (((1 : ℤ), (3 : ℤ)), 0),
          (((1 : ℤ), (4 : ℤ)), 0),
          (((2 : ℤ), (2 : ℤ)), 1),
          (((2 : ℤ), (4 : ℤ)), 1),
          (((3 : ℤ), (2 : ℤ)), 1),
          (((2 : ℤ), (3 : ℤ)), 1),
          (((3 : ℤ), (6 : ℤ)), 0),
          (((4 : ℤ), (6 : ℤ)), 0),
          (((5 : ℤ), (6 : ℤ)), 0),
          (((5 : ℤ), (5 : ℤ)), 0),
          (((5 : ℤ), (4 : ℤ)), 1),
          (((3 : ℤ), (5 : ℤ)), 1),
          (((4 : ℤ), (5 : ℤ)), 1)]) ((4 : ℤ), (4 : ℤ)) 2 =
      MinesweeperAI.new_sentence (runTrace
        [(((0 : ℤ), (7 : ℤ)), 0),
          (((1 : ℤ), (2 : ℤ)), 1),
          (((1 : ℤ), (3 : ℤ)), 0),
          (((1 : ℤ), (4 : ℤ)), 0),
          (((2 : ℤ), (2 : ℤ)), 1),
          (((2 : ℤ), (4 : ℤ)), 1),
          (((3 : ℤ), (2 : ℤ)), 1),
          (((2 : ℤ), (3 : ℤ)), 1),
          (((3 : ℤ), (6 : ℤ)), 0),
          (((4 : ℤ), (6 : ℤ)), 0),
          (((5 : ℤ), (6 : ℤ)), 0),
          (((5 : ℤ), (5 : ℤ)), 0),
          (((5 : ℤ), (4 : ℤ)), 1),
          (((3 : ℤ), (5 : ℤ)), 1),
          (((4 : ℤ), (5 : ℤ)), 1),
          (((4 : ℤ), (4 : ℤ)), 2)]) ((4 : ℤ), (4 : ℤ)) 2 ∧
      (runTrace
        [(((0 : ℤ), (7 : ℤ)), 0),
          (((1 : ℤ), (2 : ℤ)), 1),
          (((1 : ℤ), (3 : ℤ)), 0),
          (((1 : ℤ), (4 : ℤ)), 0),
          (((2 : ℤ), (2 : ℤ)), 1),
          (((2 : ℤ), (4 : ℤ)), 1),
          (((3 : ℤ), (2 : ℤ)), 1),
          (((2 : ℤ), (3 : ℤ)), 1),
          (((3 : ℤ), (6 : ℤ)), 0),
          (((4 : ℤ), (6 : ℤ)), 0),
          (((5 : ℤ), (6 : ℤ)), 0),
          (((5 : ℤ), (5 : ℤ)), 0),
          (((5 : ℤ), (4 : ℤ)), 1),
          (((3 : ℤ), (5 : ℤ)), 1),
          (((4 : ℤ), (5 : ℤ)), 1),
          (((4 : ℤ), (4 : ℤ)), 2),
          (((4 : ℤ), (4 : ℤ)), 2)]).knowledge.count
        (MinesweeperAI.new_sentence (runTrace
          [(((0 : ℤ), (7 : ℤ)), 0),
          (((1 : ℤ), (2 : ℤ)), 1),
          (((1 : ℤ), (3 : ℤ)), 0),
          (((1 : ℤ), (4 : ℤ)), 0),
          (((2 : ℤ), (2 : ℤ)), 1),
          (((2 : ℤ), (4 : ℤ)), 1),
          (((3 : ℤ), (2 : ℤ)), 1),
          (((2 : ℤ), (3 : ℤ)), 1),
          (((3 : ℤ), (6 : ℤ)), 0),
          (((4 : ℤ), (6 : ℤ)), 0),
          (((5 : ℤ), (6 : ℤ)), 0),
          (((5 : ℤ), (5 : ℤ)), 0),
          (((5 : ℤ), (4 : ℤ)), 1),
          (((3 : ℤ), (5 : ℤ)), 1),
          (((4 : ℤ), (5 : ℤ)), 1),
          (((4 : ℤ), (4 : ℤ)), 2)]) ((4 : ℤ), (4 : ℤ)) 2) = 0 := by
  decide

/-- C9 (amended): invoking `add_knowledge` twice in succession with the
identical `(cell, count)` pair does not duplicate the resulting Sentence at
the sentence-addition step: provided the knowledge collection holds at most
one copy when the second call reaches its dedup check (right after the
initial `mark_safe(cell)` propagation), it holds exactly one copy immediately
after the addition step.  The propagation passes that follow inside the same
call may mutate or remove that copy, so only the addition step is
duplication-free (the counterexample shows the final count can drop to
zero). -/
theorem add_knowledge_twice_dedup (st : MinesweeperAI) (cell : Cell) (n : ℤ)
    (h : (((st.add_knowledge cell n).mark_safe cell)).knowledge.count
        ((st.add_knowledge cell n).new_sentence cell n) ≤ 1) :
    ((st.add_knowledge cell n).add_step cell n).knowledge.count
        ((st.add_knowledge cell n).new_sentence cell n) = 1 := by
  rw [add_step_eq]
  split_ifs with hmem
  · have hpos : 0 < (((st.add_knowledge cell n).mark_safe cell)).knowledge.count
        ((st.add_knowledge cell n).new_sentence cell n) :=
      List.count_pos_iff.mpr hmem
    show (((st.add_knowledge cell n).mark_safe cell)).knowledge.count
        ((st.add_knowledge cell n).new_sentence cell n) = 1
    omega
  · have h0 : (((st.add_knowledge cell n).mark_safe cell)).knowledge.count
        ((st.add_knowledge cell n).new_sentence cell n) = 0 :=
      List.count_eq_zero.mpr hmem
    show ((((st.add_knowledge cell n).mark_safe cell)).knowledge ++
        [(st.add_knowledge cell n).new_sentence cell n]).count
        ((st.add_knowledge cell n).new_sentence cell n) = 1
    rw [List.count_append, h0]
    simp

/-- Witness for the amended C9 theorem: two identical `add_knowledge((0,0),0)`
calls from the fresh agent; the collection holds the sentence once right
after the second call's addition step. -/
theorem add_knowledge_twice_dedup_w :
    (((initState.add_knowledge ((0 : ℤ), (0 : ℤ)) 0).mark_safe
        ((0 : ℤ), (0 : ℤ)))).knowledge.count
      ((initState.add_knowledge ((0 : ℤ), (0 : ℤ)) 0).new_sentence
        ((0 : ℤ), (0 : ℤ)) 0) ≤ 1 ∧
    ((initState.add_knowledge ((0 : ℤ), (0 : ℤ)) 0).add_step
        ((0 : ℤ), (0 : ℤ)) 0).knowledge.count
      ((initState.add_knowledge ((0 : ℤ), (0 : ℤ)) 0).new_sentence
        ((0 : ℤ), (0 : ℤ)) 0) = 1 :=
  ⟨by decide, add_knowledge_twice_dedup initState ((0 : ℤ), (0 : ℤ)) 0 (by decide)⟩

/-- C1: the count invariant fails against the code on sound inputs from a
board larger than the `0..7` window that `adjacent_cell` hardcodes.  On the
9×9 board with its one mine at `(8,8)`, querying `(8,7)` with its true clue
`1` builds the Sentence `{(7,6),(7,7)} = 1` — false of the board, because the
clipping silently dropped the mine's cell `(8,8)` and the board row 8 — and
the sound follow-up query `(8,6)` with clue `0` then marks both remaining
cells safe, leaving the Sentence `{} = 1` in the knowledge collection:
`count = 1 > |cells| = 0`.  (On boards within the window the invariant does
hold at every point, by `sentence_count_invariant` and the `kbinv` lemmas it
rests on, so the violation is exactly the hardcoded-clipping slip of C4.) -/
theorem count_invariant_fails_off_window :
    SoundObs 9 9 {((8 : ℤ), (8 : ℤ))}
        [(((8 : ℤ), (7 : ℤ)), 1), (((8 : ℤ), (6 : ℤ)), 0)] ∧
      (⟨∅, 1⟩ : Sentence) ∈
        (runTrace [(((8 : ℤ), (7 : ℤ)), 1), (((8 : ℤ), (6 : ℤ)), 0)]).knowledge ∧
      ¬((⟨∅, 1⟩ : Sentence).count ≤ (((⟨∅, 1⟩ : Sentence).cells.card) : ℤ)) := by
  decide

/-- C6: disjointness of `safes` and `mines` fails against the code on sound
inputs from a board larger than the hardcoded `0..7` clipping window.  On the
9×9 board with its one mine at `(8,8)`: the query `(8,7)` (true clue `1`)
builds the false Sentence `{(7,6),(7,7)} = 1`; the query `(7,6)` (clue `0`)
shrinks it to `{(7,7)} = 1`, whose full count puts `(7,7)` into `mines`; the
query `(6,6)` (clue `0`) then yields a count-zero Sentence containing
`(7,7)`, and the `known_safes` fold — which checks only `safes`, never
`mines` — marks `(7,7)` safe as well, so `safes ∩ mines = {(7,7)} ≠ ∅`.
(Within the window disjointness holds on every sound trace, by
`safes_mines_monotone_disjoint`.) -/
theorem disjointness_fails_off_window :
    SoundObs 9 9 {((8 : ℤ), (8 : ℤ))}
        [(((8 : ℤ), (7 : ℤ)), 1), (((7 : ℤ), (6 : ℤ)), 0), (((6 : ℤ), (6 : ℤ)), 0)] ∧
      ((7 : ℤ), (7 : ℤ)) ∈ (runTrace
        [(((8 : ℤ), (7 : ℤ)), 1), (((7 : ℤ), (6 : ℤ)), 0),
          (((6 : ℤ), (6 : ℤ)), 0)]).safes ∧
      ((7 : ℤ), (7 : ℤ)) ∈ (runTrace
        [(((8 : ℤ), (7 : ℤ)), 1), (((7 : ℤ), (6 : ℤ)), 0),
          (((6 : ℤ), (6 : ℤ)), 0)]).mines ∧
      (runTrace
        [(((8 : ℤ), (7 : ℤ)), 1), (((7 : ℤ), (6 : ℤ)), 0),
          (((6 : ℤ), (6 : ℤ)), 0)]).safes ∩
        (runTrace
          [(((8 : ℤ), (7 : ℤ)), 1), (((7 : ℤ), (6 : ℤ)), 0),
            (((6 : ℤ), (6 : ℤ)), 0)]).mines ≠ ∅ := by
  decide
